import Mathlib

/-!
Verification of the GenBank/GFF io module (`io.go`) of the `poly` repository.

Go strings are embedded as `List Char` (`GoStr`); the module's byte-level
column tests only ever meet ASCII data, for which the two views agree.
Go runtime panics (index out of range, slice out of range) are embedded as
`none` in an `Option` result: a function returning `none` models a Go panic,
`some x` models normal termination with value `x`.  Go `map[string]string`
is embedded as an association list, with `mapInsert` giving Go's
last-write-wins update; the list order stands for Go's (unspecified) map
iteration order.
-/

namespace PolyIo

/-- Go `string`, embedded as a list of characters. -/
abbrev GoStr := List Char

/-- Embed a Lean string literal as a `GoStr`. -/
def str (s : String) : GoStr := s.toList

/-- Go `unicode.IsSpace` restricted to the Latin-1 range (all that can occur here). -/
def isSpaceGo (c : Char) : Bool :=
  c = ' ' || c = '\t' || c = '\n' || c = '\u000B' || c = '\u000C' || c = '\r' ||
  c = '\u0085' || c = '\u00A0'

/-- Go `strings.TrimSpace`: drop leading and trailing whitespace. -/
def trimSpace (s : GoStr) : GoStr :=
  List.rdropWhile isSpaceGo (List.dropWhile isSpaceGo s)

/-- Go `strings.Split(s, sep)` for a one-character separator `sep`.
Always returns a non-empty list; `splitChar sep [] = [[]]` just as
`strings.Split("", sep) = [""]`. -/
def splitChar (sep : Char) : GoStr → List GoStr
  | [] => [[]]
  | c :: cs =>
    let rest := splitChar sep cs
    if c = sep then [] :: rest
    else
      match rest with
      | [] => [[c]]
      | t :: ts => (c :: t) :: ts

/-- Go `strings.Join(parts, sep)`. -/
def joinStr (sep : GoStr) : List GoStr → GoStr
  | [] => []
  | [x] => x
  | x :: y :: xs => x ++ sep ++ joinStr sep (y :: xs)

/-- Go map assignment `m[k] = v` on the association-list embedding:
overwrite the existing binding of `k` if present, else append. -/
def mapInsert (k v : GoStr) : List (GoStr × GoStr) → List (GoStr × GoStr)
  | [] => [(k, v)]
  | (k', v') :: rest => if k' = k then (k, v) :: rest else (k', v') :: mapInsert k v rest

/-- Go map read `m[k]` on the association-list embedding (zero value `""` if absent). -/
def mapLookup (k : GoStr) : List (GoStr × GoStr) → GoStr
  | [] => []
  | (k', v') :: rest => if k' = k then v' else mapLookup k rest

/-- Go `strconv.Itoa` on a natural number. -/
def natToStr (n : Nat) : GoStr := Nat.toDigits 10 n

/-- Go `strconv.Itoa`. -/
def intToStr (n : Int) : GoStr :=
  if n < 0 then '-' :: natToStr n.natAbs else natToStr n.toNat

/-- Decimal value of an all-digit string. -/
def digitsToNat (s : GoStr) : Nat :=
  s.foldl (fun acc c => acc * 10 + (c.toNat - '0'.toNat)) 0

/-- Go `strconv.Atoi` with its error ignored, as the callers in `io.go` do:
the parsed value on an optionally-signed all-digit string, `0` otherwise. -/
def atoiGo (s : GoStr) : Int :=
  match s with
  | '-' :: rest =>
    if !rest.isEmpty && rest.all Char.isDigit then -(digitsToNat rest : Int) else 0
  | '+' :: rest =>
    if !rest.isEmpty && rest.all Char.isDigit then (digitsToNat rest : Int) else 0
  | _ =>
    if !s.isEmpty && s.all Char.isDigit then (digitsToNat s : Int) else 0

/-- `Locus` struct of `io.go`; zero values as Go defaults. -/
structure Locus where
  Name : GoStr := []
  SequenceLength : GoStr := []
  MoleculeType : GoStr := []
  GenBankDivision : GoStr := []
  ModDate : GoStr := []
  Circular : Bool := false
deriving DecidableEq, Repr

/-- `Reference` struct of `io.go`. -/
structure Reference where
  Index : GoStr := []
  Authors : GoStr := []
  Title : GoStr := []
  Journal : GoStr := []
  PubMed : GoStr := []
  Remark : GoStr := []
  Range : GoStr := []
deriving DecidableEq, Repr

/-- `Primary` struct of `io.go`. -/
structure Primary where
  RefSeq : GoStr := []
  PrimaryIdentifier : GoStr := []
  Primary_Span : GoStr := []
  Comp : GoStr := []
deriving DecidableEq, Repr

/-- `Meta` struct of `io.go`. -/
structure Meta where
  Name : GoStr := []
  GffVersion : GoStr := []
  RegionStart : Int := 0
  RegionEnd : Int := 0
  Size : Int := 0
  «Type» : GoStr := []
  GenbankDivision : GoStr := []
  Date : GoStr := []
  Definition : GoStr := []
  Accession : GoStr := []
  Version : GoStr := []
  Keywords : GoStr := []
  Organism : GoStr := []
  Source : GoStr := []
  Origin : GoStr := []
  Locus : Locus := {}
  References : List Reference := []
  Primaries : List Primary := []
deriving DecidableEq, Repr

/-- `Feature` struct of `io.go`; `Attributes` is the Go `map[string]string`
embedded as an association list. -/
structure Feature where
  Name : GoStr := []
  Source : GoStr := []
  «Type» : GoStr := []
  Start : Int := 0
  End : Int := 0
  Score : GoStr := []
  Strand : GoStr := []
  Phase : GoStr := []
  Attributes : List (GoStr × GoStr) := []
  Location : GoStr := []
  Sequence : GoStr := []
deriving DecidableEq, Repr

/-- `Sequence` struct of `io.go`. -/
structure Sequence where
  Description : GoStr := []
  Sequence : GoStr := []
deriving DecidableEq, Repr

/-- `AnnotatedSequence` struct of `io.go`. -/
structure AnnotatedSequence where
  Meta : Meta := {}
  Features : List Feature := []
  Sequence : Sequence := {}
deriving DecidableEq, Repr

/-- `const metaIndex = 0` of `io.go`. -/
def metaIndex : Nat := 0

/-- `const subMetaIndex = 5` of `io.go`. -/
def subMetaIndex : Nat := 5

/-- `const qualifierIndex = 21` of `io.go`. -/
def qualifierIndex : Nat := 21

/-- `quickMetaCheck` of `io.go`: `line[0]` is not a blank.  Indexing an empty
line panics in Go, embedded as `none`. -/
def quickMetaCheck (line : GoStr) : Option Bool := do
  let c0 ← line.get? metaIndex
  pure (c0 != ' ')

/-- `quickSubMetaCheck` of `io.go`: `line[0]` blank and `line[5]` not blank,
with Go's left-to-right short-circuit evaluation (so `line[5]` is only read
when `line[0]` existed and was a blank). -/
def quickSubMetaCheck (line : GoStr) : Option Bool := do
  let c0 ← line.get? metaIndex
  if c0 = ' ' then
    let c5 ← line.get? subMetaIndex
    pure (c5 != ' ')
  else
    pure false

/-- `quickFeatureCheck` of `io.go` (textually the same test as
`quickSubMetaCheck`, duplicated in the source). -/
def quickFeatureCheck (line : GoStr) : Option Bool := do
  let c0 ← line.get? metaIndex
  if c0 = ' ' then
    let c5 ← line.get? subMetaIndex
    pure (c5 != ' ')
  else
    pure false

/-- `quickQualifierCheck` of `io.go`: blanks at columns 0 and 5 and a `/` at
column 21, short-circuit evaluated. -/
def quickQualifierCheck (line : GoStr) : Option Bool := do
  let c0 ← line.get? metaIndex
  if c0 = ' ' then
    let c5 ← line.get? subMetaIndex
    if c5 = ' ' then
      let c21 ← line.get? qualifierIndex
      pure (c21 == '/')
    else
      pure false
  else
    pure false

/-- `quickQualifierSubLineCheck` of `io.go`: blanks at columns 0 and 5, no `/`
at column 21 and a blank at column 20, short-circuit evaluated. -/
def quickQualifierSubLineCheck (line : GoStr) : Option Bool := do
  let c0 ← line.get? metaIndex
  if c0 = ' ' then
    let c5 ← line.get? subMetaIndex
    if c5 = ' ' then
      let c21 ← line.get? qualifierIndex
      if c21 = '/' then
        pure false
      else
        let c20 ← line.get? (qualifierIndex - 1)
        pure (c20 == ' ')
    else
      pure false
  else
    pure false

/-- `genbankTopLevelFeatures` list of `io.go`. -/
def genbankTopLevelFeatures : List GoStr :=
  [str "LOCUS", str "DEFINITION", str "ACCESSION", str "VERSION", str "KEYWORDS",
   str "SOURCE", str "REFERENCE", str "FEATURES", str "ORIGIN"]

/-- `genbankSubLevelFeatures` list of `io.go`. -/
def genbankSubLevelFeatures : List GoStr :=
  [str "ORGANISM", str "AUTHORS", str "TITLE", str "JOURNAL", str "PUBMED", str "REMARK"]

/-- `topLevelFeatureCheck` of `io.go`: the trimmed token is one of the
top-level keywords. -/
def topLevelFeatureCheck (featureString : GoStr) : Bool :=
  genbankTopLevelFeatures.any (fun feature => feature == trimSpace featureString)

/-- `subLevelFeatureCheck` of `io.go`. -/
def subLevelFeatureCheck (featureString : GoStr) : Bool :=
  genbankSubLevelFeatures.any (fun feature => feature == trimSpace featureString)

/-- `parseLocus` of `io.go`: positional token layout of the LOCUS line.
Out-of-range token accesses panic in Go, embedded as `none`. -/
def parseLocus (locusString : GoStr) : Option Locus := do
  let locusSplit := splitChar ' ' (trimSpace locusString)
  let filteredLocusSplit := locusSplit.filter (fun t => !t.isEmpty)
  let name ← filteredLocusSplit.get? 1
  let len2 ← filteredLocusSplit.get? 2
  let len3 ← filteredLocusSplit.get? 3
  let mol ← filteredLocusSplit.get? 4
  let t5 ← filteredLocusSplit.get? 5
  if t5 = str "circular" ∨ t5 = str "linear" then
    let circular := if t5 = str "circular" then true else false
    let division ← filteredLocusSplit.get? 6
    let modDate ← filteredLocusSplit.get? 7
    pure { Name := name, SequenceLength := joinStr [' '] [len2, len3], MoleculeType := mol,
           Circular := circular, GenBankDivision := division, ModDate := modDate }
  else
    let division ← filteredLocusSplit.get? 5
    let modDate ← filteredLocusSplit.get? 6
    pure { Name := name, SequenceLength := joinStr [' '] [len2, len3], MoleculeType := mol,
           Circular := false, GenBankDivision := division, ModDate := modDate }

/-- Loop body of `joinSubLines` of `io.go`: fold plain-continuation lines into
the running `base`, stopping (without consuming) at the first line that is
top-level or sub-level.  Go's `||` short-circuit means `quickSubMetaCheck` is
only evaluated when `quickMetaCheck` returned `false`. -/
def joinSubLinesAux : GoStr → List GoStr → Option GoStr
  | base, [] => some base
  | base, subLine :: rest => do
    let m ← quickMetaCheck subLine
    if m then
      pure base
    else
      let sm ← quickSubMetaCheck subLine
      if sm then
        pure base
      else
        joinSubLinesAux (trimSpace (trimSpace base ++ [' '] ++ trimSpace subLine)) rest

/-- `joinSubLines` of `io.go`. -/
def joinSubLines (splitLine subLines : List GoStr) : Option GoStr :=
  joinSubLinesAux (trimSpace (joinStr [' '] splitLine.tail)) subLines

/-- Loop of `getSourceOrganism` of `io.go`: accumulate SOURCE continuation
lines until the first line whose head token is `ORGANISM`, then hand the
remaining lines to `joinSubLines`.  `organism` keeps its zero value `""`
when the loop runs out of lines. -/
def getSourceOrganismAux : GoStr → List GoStr → Option (GoStr × GoStr)
  | source, [] => some (source, [])
  | source, subLine :: rest => do
    let headString := (splitChar ' ' (trimSpace subLine)).headD []
    let c0 ← subLine.get? 0
    if c0 = ' ' ∧ headString ≠ str "ORGANISM" then
      getSourceOrganismAux (trimSpace (trimSpace source ++ [' '] ++ trimSpace subLine)) rest
    else
      let organismSplitLine := splitChar ' ' (trimSpace subLine)
      let organism ← joinSubLines organismSplitLine rest
      pure (source, organism)

/-- `getSourceOrganism` of `io.go`. -/
def getSourceOrganism (splitLine subLines : List GoStr) : Option (GoStr × GoStr) :=
  getSourceOrganismAux (trimSpace (joinStr [' '] splitLine.tail)) subLines

/-- Loop of `getReference` of `io.go`: scan sub-lines, stopping at the first
top-level keyword; on a recognized sub-level keyword, fill the matching field
from `joinSubLines` over the lines after it; otherwise skip the line. -/
def getReferenceAux : Reference → List GoStr → Option Reference
  | reference, [] => some reference
  | reference, subLine :: rest => do
    let featureSplitLine := splitChar ' ' (trimSpace subLine)
    let headString := featureSplitLine.headD []
    if topLevelFeatureCheck headString then
      pure reference
    else if headString = str "AUTHORS" then
      let v ← joinSubLines featureSplitLine rest
      getReferenceAux { reference with Authors := v } rest
    else if headString = str "TITLE" then
      let v ← joinSubLines featureSplitLine rest
      getReferenceAux { reference with Title := v } rest
    else if headString = str "JOURNAL" then
      let v ← joinSubLines featureSplitLine rest
      getReferenceAux { reference with Journal := v } rest
    else if headString = str "PUBMED" then
      let v ← joinSubLines featureSplitLine rest
      getReferenceAux { reference with PubMed := v } rest
    else if headString = str "REMARK" then
      let v ← joinSubLines featureSplitLine rest
      getReferenceAux { reference with Remark := v } rest
    else
      getReferenceAux reference rest

/-- `getReference` of `io.go`: index is the first whitespace token of the
trimmed remainder, the range the rest (only when the remainder has more than
one character, per `len(base) > 1` in the source). -/
def getReference (splitLine subLines : List GoStr) : Option Reference :=
  let base := trimSpace (joinStr [' '] splitLine.tail)
  let index := (splitChar ' ' base).headD []
  let range :=
    if base.length > 1 then trimSpace (joinStr [' '] (splitChar ' ' base).tail) else []
  getReferenceAux { Index := index, Range := range } subLines

/-- The regexp `["/\n]+` of `getFeatures` of `io.go`, applied with
`ReplaceAllString(_, "")`: delete every quote, slash and newline character. -/
def stripQuoteSlash (s : GoStr) : GoStr :=
  s.filter (fun c => !(c == '"' || c == '/' || c == '\n'))

/-- The qualifier-to-attribute step of `getFeatures` of `io.go` (lines
817-825): strip quotes/slashes/newlines, `strings.Split` on `=`, label from
index 0, value from index 1 (empty when there is no index 1). -/
def qualifierToAttribute (qualifier : GoStr) : GoStr × GoStr :=
  let attributeSplit := splitChar '=' (stripQuoteSlash qualifier)
  let attributeLabel := trimSpace (attributeSplit.headD [])
  let attributeValue :=
    if attributeSplit.length < 2 then [] else trimSpace (attributeSplit.getD 1 [])
  (attributeLabel, attributeValue)

/-- Inner loop of `getFeatures` of `io.go` collecting qualifier continuation
lines: while the current line passes `quickQualifierSubLineCheck`, append its
trimmed text to the qualifier and advance the cursor (`lines[lineIndex]`
without a bound check: advancing past the end is a Go panic, i.e. `none`).
Returns the assembled qualifier together with the current line and the lines
after it. -/
def qualifierSubLineLoop (fuel : Nat) (qualifier line : GoStr) (rest : List GoStr) :
    Option (GoStr × GoStr × List GoStr) :=
  match fuel with
  | 0 => none
  | fuel + 1 =>
    match quickQualifierSubLineCheck line with
    | none => none
    | some c =>
      if c then
        match rest with
        | [] => none
        | l2 :: rest2 => qualifierSubLineLoop fuel (qualifier ++ trimSpace line) l2 rest2
      else
        some (qualifier, line, rest)

/-- Middle loop of `getFeatures` of `io.go`: while the current line passes
`quickQualifierCheck`, take it as a qualifier, advance the cursor (unchecked,
a panic at end of input), absorb continuation lines, and insert the resulting
attribute (last write wins).  `fuel` bounds the iteration count; every
iteration consumes at least one line, so the caller's fuel is never
exhausted before the loop exits on its own. -/
def qualifierLoop (fuel : Nat) (attributes : List (GoStr × GoStr)) (line : GoStr)
    (rest : List GoStr) : Option (List (GoStr × GoStr) × GoStr × List GoStr) :=
  match fuel with
  | 0 => none
  | fuel + 1 =>
    match quickQualifierCheck line with
    | none => none
    | some c =>
      if c then
        let qualifier := line
        match rest with
        | [] => none
        | l2 :: rest2 =>
          match qualifierSubLineLoop fuel qualifier l2 rest2 with
          | none => none
          | some (q, line2, rest3) =>
            let (attributeLabel, attributeValue) := qualifierToAttribute q
            qualifierLoop fuel (mapInsert attributeLabel attributeValue attributes) line2 rest3
      else
        some (attributes, line, rest)

/-- Outer loop of `getFeatures` of `io.go`: stop when the current line is
top-level or fails the feature check (Go's `||` evaluates `quickMetaCheck`
first and skips `quickFeatureCheck` when it was true); otherwise read type and
location from the declaration line, advance the cursor (unchecked), run the
qualifier loop, and append the feature.  The `Feature{}` literal of the
source leaves `Name` at its zero value `""`. -/
def getFeaturesLoop (fuel : Nat) (features : List Feature) (lines : List GoStr) :
    Option (List Feature) :=
  match fuel with
  | 0 => none
  | fuel + 1 =>
    match lines with
    | [] => some features
    | line :: rest =>
      match quickMetaCheck line with
      | none => none
      | some m =>
        if m then
          some features
        else
          match quickFeatureCheck line with
          | none => none
          | some fc =>
            if !fc then
              some features
            else
              let splitLine := splitChar ' ' (trimSpace line)
              let featureType := trimSpace (splitLine.headD [])
              let featureLocation := trimSpace (splitLine.getLastD [])
              match rest with
              | [] => none
              | l2 :: rest2 =>
                match qualifierLoop fuel [] l2 rest2 with
                | none => none
                | some (attrs, line3, rest3) =>
                  let feature : Feature :=
                    { «Type» := featureType, Location := featureLocation, Attributes := attrs }
                  getFeaturesLoop fuel (features ++ [feature]) (line3 :: rest3)

/-- `getFeatures` of `io.go`.  The fuel `lines.length + 1` is enough: every
loop iteration advances the cursor by at least one line. -/
def getFeatures (lines : List GoStr) : Option (List Feature) :=
  getFeaturesLoop (lines.length + 1) [] lines

/-- `getSequence` of `io.go`: concatenate all lines after ORIGIN and delete
everything outside `[a-zA-Z]` (the regexp `[^a-zA-Z]+` replaced by `""`). -/
def getSequence (subLines : List GoStr) : Sequence :=
  { Description := [],
    Sequence := (subLines.foldl (fun acc l => acc ++ l) []).filter Char.isAlpha }

/-- Loop of `ParseGbk` of `io.go`.  Note the `sequenceBreakFlag` of the
source: it is declared `false` inside the loop body on every iteration and
tested right there, before the `switch` that can set it, so the
`if sequenceBreakFlag == true { break }` never fires and the scan continues
past ORIGIN; the embedding therefore recurses after the ORIGIN case exactly
as it does after every other case. -/
def parseGbkLoop : List GoStr → Meta → List Feature → Sequence →
    Option (Meta × List Feature × Sequence)
  | [], meta, features, sequence => some (meta, features, sequence)
  | line :: rest, meta, features, sequence =>
    let splitLine := splitChar ' ' line
    let subLines := rest
    let head := splitLine.headD []
    if head = [] then
      parseGbkLoop rest meta features sequence
    else if head = str "LOCUS" then
      match parseLocus line with
      | none => none
      | some locus => parseGbkLoop rest { meta with Locus := locus } features sequence
    else if head = str "DEFINITION" then
      match joinSubLines splitLine subLines with
      | none => none
      | some v => parseGbkLoop rest { meta with Definition := v } features sequence
    else if head = str "ACCESSION" then
      match joinSubLines splitLine subLines with
      | none => none
      | some v => parseGbkLoop rest { meta with Accession := v } features sequence
    else if head = str "VERSION" then
      match joinSubLines splitLine subLines with
      | none => none
      | some v => parseGbkLoop rest { meta with Version := v } features sequence
    else if head = str "KEYWORDS" then
      match joinSubLines splitLine subLines with
      | none => none
      | some v => parseGbkLoop rest { meta with Keywords := v } features sequence
    else if head = str "SOURCE" then
      match getSourceOrganism splitLine subLines with
      | none => none
      | some (source, organism) =>
        parseGbkLoop rest { meta with Source := source, Organism := organism } features sequence
    else if head = str "REFERENCE" then
      match getReference splitLine subLines with
      | none => none
      | some reference =>
        parseGbkLoop rest { meta with References := meta.References ++ [reference] }
          features sequence
    else if head = str "FEATURES" then
      match getFeatures subLines with
      | none => none
      | some fs => parseGbkLoop rest meta fs sequence
    else if head = str "ORIGIN" then
      parseGbkLoop rest meta features (getSequence subLines)
    else
      parseGbkLoop rest meta features sequence

/-- `ParseGbk` of `io.go`. -/
def parseGbk (gbk : GoStr) : Option AnnotatedSequence :=
  match parseGbkLoop (splitChar '\n' gbk) {} [] {} with
  | none => none
  | some (meta, features, sequence) =>
    some { Meta := meta, Features := features, Sequence := sequence }

/-- `ReadGbk` of `io.go`.  The argument is the outcome of `ioutil.ReadFile`:
`none` for a read error, `some content` for success.  On error the source
ignores `err` and returns the still-zero `annotatedSequence`, so the
embedding returns the zero value there. -/
def readGbk (file : Option GoStr) : Option AnnotatedSequence :=
  match file with
  | none => some {}
  | some content => parseGbk content

/-- Attribute loop of `ParseGff` of `io.go`: split the ninth field on `;`,
then each piece on `=`; the read of `attributeSplit[1]` is unchecked, so a
piece without `=` is a Go panic (`none`). -/
def parseGffAttrLoop (attributes : List (GoStr × GoStr)) :
    List GoStr → Option (List (GoStr × GoStr))
  | [] => some attributes
  | attr :: rest => do
    let attributeSplit := splitChar '=' attr
    let key := attributeSplit.headD []
    let value ← attributeSplit.get? 1
    parseGffAttrLoop (mapInsert key value attributes) rest

/-- Feature-line branch of `ParseGff` of `io.go`: nine tab-separated fields
(unchecked indexing, hence `none` when fewer), `Atoi` with ignored errors for
start and end, and the attribute loop over field 8. -/
def parseGffFeatureLine (line : GoStr) : Option Feature := do
  let fields := splitChar '\t' line
  let f0 ← fields.get? 0
  let f1 ← fields.get? 1
  let f2 ← fields.get? 2
  let f3 ← fields.get? 3
  let f4 ← fields.get? 4
  let f5 ← fields.get? 5
  let f6 ← fields.get? 6
  let f7 ← fields.get? 7
  let f8 ← fields.get? 8
  let attributes ← parseGffAttrLoop [] (splitChar ';' f8)
  pure { Name := f0, Source := f1, «Type» := f2, Start := atoiGo f3, End := atoiGo f4,
         Score := f5, Strand := f6, Phase := f7, Attributes := attributes }

/-- Line loop of `ParseGff` of `io.go`, carried over all lines (the two meta
lines are caught by the `##` branch).  `line[0:2]` on a one-character line is
a Go slice panic, embedded as `none`. -/
def parseGffLoop : List GoStr → Bool → List Feature → GoStr → GoStr →
    Option (List Feature × GoStr × GoStr)
  | [], _, records, description, buffer => some (records, description, buffer)
  | line :: rest, fastaFlag, records, description, buffer =>
    if line = str "##FASTA" then
      parseGffLoop rest true records description buffer
    else if line.length = 0 then
      parseGffLoop rest fastaFlag records description buffer
    else if line.length < 2 then
      none
    else if line.take 2 = str "##" then
      parseGffLoop rest fastaFlag records description buffer
    else if fastaFlag ∧ line.take 1 ≠ str ">" then
      parseGffLoop rest fastaFlag records description (buffer ++ line)
    else if fastaFlag ∧ line.take 1 = str ">" then
      parseGffLoop rest fastaFlag records line buffer
    else
      match parseGffFeatureLine line with
      | none => none
      | some record => parseGffLoop rest fastaFlag (records ++ [record]) description buffer

/-- `ParseGff` of `io.go`.  `lines[0:2]` is a Go slice panic when the input
has fewer than two lines, and the version/region token reads are unchecked. -/
def parseGff (gff : GoStr) : Option AnnotatedSequence := do
  let lines := splitChar '\n' gff
  let versionString ← lines.get? 0
  let regionLine ← lines.get? 1
  let regionStringArray := splitChar ' ' regionLine
  let gffVersion ← (splitChar ' ' versionString).get? 1
  let name ← regionStringArray.get? 1
  let regionStart := atoiGo ((regionStringArray.get? 2).getD [])
  let regionEnd := atoiGo ((regionStringArray.get? 3).getD [])
  let meta : Meta :=
    { Name := name, GffVersion := gffVersion, RegionStart := regionStart,
      RegionEnd := regionEnd, Size := regionEnd - regionStart }
  match parseGffLoop lines false [] [] [] with
  | none => none
  | some (records, description, buffer) =>
    pure { Meta := meta, Features := records,
           Sequence := { Description := description, Sequence := buffer } }

/-- Ascending byte-wise (here: character-wise) lexicographic comparison, the
order of Go `sort.Strings`. -/
def lexLe : GoStr → GoStr → Bool
  | [], _ => true
  | _ :: _, [] => false
  | a :: as, b :: bs => if a < b then true else if b < a then false else lexLe as bs

/-- Go `sort.Strings`: sort ascending by `lexLe`. -/
def sortStrings (l : List GoStr) : List GoStr :=
  List.insertionSort (fun a b => lexLe a b = true) l

/-- The `\t` separator of `BuildGff` of `io.go`. -/
def tabStr : GoStr := ['\t']

/-- Per-feature line of `BuildGff` of `io.go`: defaulted name/source/type,
`Itoa` for start and end, score/strand/phase verbatim, and the attribute keys
emitted in sorted order as `key=value;` with the final `;` dropped. -/
def buildGffFeatureLine (annotatedSequence : AnnotatedSequence) (feature : Feature) : GoStr :=
  let featureName := if feature.Name ≠ [] then feature.Name else annotatedSequence.Meta.Name
  let featureSource := if feature.Source ≠ [] then feature.Source else str "feature"
  let featureType := if feature.«Type» ≠ [] then feature.«Type» else str "unknown"
  let featureStart := intToStr feature.Start
  let featureEnd := intToStr feature.End
  let keys := sortStrings (feature.Attributes.map Prod.fst)
  let featureAttributes := keys.foldl
    (fun acc key => acc ++ key ++ ['='] ++ mapLookup key feature.Attributes ++ [';']) []
  let featureAttributes :=
    if featureAttributes.length > 0 then featureAttributes.dropLast else featureAttributes
  featureName ++ tabStr ++ featureSource ++ tabStr ++ featureType ++ tabStr ++ featureStart ++
    tabStr ++ featureEnd ++ tabStr ++ feature.Score ++ tabStr ++ feature.Strand ++ tabStr ++
    feature.Phase ++ tabStr ++ featureAttributes ++ ['\n']

/-- Sequence wrapping of `BuildGff` of `io.go`: the loop index is bumped
before the test, so a newline follows every 70th letter. -/
def wrapSequenceAux : Nat → GoStr → GoStr
  | _, [] => []
  | letterIndex, letter :: rest =>
    let li := letterIndex + 1
    if li % 70 = 0 ∧ li ≠ 0 then letter :: '\n' :: wrapSequenceAux li rest
    else letter :: wrapSequenceAux li rest

/-- Sequence block of `BuildGff` of `io.go`. -/
def wrapSequence (s : GoStr) : GoStr := wrapSequenceAux 0 s

/-- `BuildGff` of `io.go`. -/
def buildGff (annotatedSequence : AnnotatedSequence) : GoStr :=
  let versionString :=
    if annotatedSequence.Meta.GffVersion ≠ [] then
      str "##gff-version " ++ annotatedSequence.Meta.GffVersion ++ ['\n']
    else
      str "##gff-version 3 \n"
  let name :=
    if annotatedSequence.Meta.Name ≠ [] then annotatedSequence.Meta.Name
    else if annotatedSequence.Meta.Locus.Name ≠ [] then annotatedSequence.Meta.Locus.Name
    else if annotatedSequence.Meta.Accession ≠ [] then annotatedSequence.Meta.Accession
    else str "unknown"
  let start :=
    if annotatedSequence.Meta.RegionStart ≠ 0 then intToStr annotatedSequence.Meta.RegionStart
    else str "1"
  let stop :=
    if annotatedSequence.Meta.RegionEnd ≠ 0 then intToStr annotatedSequence.Meta.RegionEnd
    else if annotatedSequence.Meta.Locus.SequenceLength ≠ [] then
      annotatedSequence.Meta.Locus.SequenceLength.filter Char.isDigit
    else str "1"
  let regionString := str "##sequence-region " ++ name ++ [' '] ++ start ++ [' '] ++ stop ++ ['\n']
  let featureLines := annotatedSequence.Features.foldl
    (fun acc feature => acc ++ buildGffFeatureLine annotatedSequence feature) []
  versionString ++ regionString ++ featureLines ++ str "###\n##FASTA\n>" ++
    annotatedSequence.Meta.Name ++ ['\n'] ++
    wrapSequence annotatedSequence.Sequence.Sequence ++ ['\n']

/-! ### Concrete inputs used by the claim theorems -/

/-- A GenBank text whose ORIGIN line is followed by a line starting with the
top-level token LOCUS. -/
def c1Input : GoStr := str "ORIGIN\nLOCUS pSB1C3 2070 bp DNA circular SYN 21-OCT-2015"

/-- A FEATURES block truncated by end of input right after a feature
declaration line. -/
def c2Input : List GoStr := [str "     source          1..10"]

/-- A feature whose single qualifier's value itself contains `=`. -/
def c3Input : List GoStr :=
  [str "     CDS             1..10",
   List.replicate 21 ' ' ++ str "/note=\"a=b\"",
   str "ORIGIN"]

/-- A blank-ish line of 10 characters, shorter than the 22 columns the
qualifier checks inspect. -/
def c5Input : GoStr := List.replicate 10 ' '

/-- An annotated sequence whose single feature has an empty attribute map
(as `getFeatures` produces for a feature without qualifiers). -/
def c7Model : AnnotatedSequence :=
  { Meta := { Name := str "test" },
    Features := [{ «Type» := str "misc_feature", Start := 1, End := 10 }],
    Sequence := { Sequence := str "atgc" } }

/-- A GenBank record with a named LOCUS and one qualifier-free feature. -/
def c9Input : GoStr :=
  str "LOCUS pSB1C3 2070 bp DNA circular SYN 21-OCT-2015\nFEATURES Location/Qualifiers\n     source          1..10\nORIGIN"

/-! ### Claim theorems -/

/-- C1: the claim says that once `ParseGbk` reaches ORIGIN the scan
terminates and no later line is interpreted as a top-level keyword.  In the
source, `sequenceBreakFlag` is declared `false` inside the loop body and
tested before the `switch` that sets it, so the break never fires: on an
input whose ORIGIN is followed by a LOCUS-shaped line, `getSequence` does run
over the remaining lines (the sequence below is the letters of that line),
but the scan continues and `meta.Locus` is then filled from the post-ORIGIN
line — metadata derived after ORIGIN, contradicting the claim. -/
theorem c1_scan_continues_past_origin :
    (parseGbk c1Input).map (fun a => (a.Meta.Locus.Name, a.Sequence.Sequence)) =
      some (str "pSB1C3", str "LOCUSpSBCbpDNAcircularSYNOCT") := by decide

/-- C2: the claim says end-of-input acts as an implicit FEATURES terminator
and `getFeatures` returns the features accumulated so far.  In the source,
after consuming a feature declaration line the cursor is advanced and
`lines[lineIndex]` is read without a bound check, so input ending right after
a feature line is an index-out-of-range panic (`none`) instead of a returned
feature list. -/
theorem c2_truncated_features_block_panics : getFeatures c2Input = none := by decide

/-- C3 (counterexample): the claim says the qualifier text is split on the
FIRST `=` and everything after it is kept as the value.  The source splits on
every `=` and keeps only index 1, so `/note="a=b"` yields the value `a`, not
`a=b`. -/
theorem c3_value_with_equals_truncated :
    ((getFeatures c3Input).map (fun fs => fs.map Feature.Attributes) =
        some [[(str "note", str "a")]]) ∧
      str "a" ≠ str "a=b" := by decide

/-- C5: the claim says the qualifier and qualifier-continuation checks return
`false` without faulting on lines shorter than 22 characters.  On a 10-blank
line both checks reach their unguarded read of column 21 and panic (index out
of range, embedded as `none`). -/
theorem c5_short_line_checks_panic :
    quickQualifierCheck c5Input = none ∧ quickQualifierSubLineCheck c5Input = none := by decide

/-- C7: the claim says `ParseGff ∘ BuildGff` returns the model's features and
sequence for every model.  For a model whose feature has an empty attribute
map, `BuildGff` emits an empty ninth column, and `ParseGff` then reads
`strings.Split("", "=")[1]` — an index-out-of-range panic (`none`) — so the
round trip fails instead of reproducing the model. -/
theorem c7_roundtrip_panics_on_empty_attributes :
    parseGff (buildGff c7Model) = none := by decide

/-- C8: the claim says `ReadGbk` reports read/parse failures so a caller can
distinguish a missing or unreadable file from an empty file.  The source
ignores the `ioutil.ReadFile` error (the error-returning line is commented
out) and returns the still-zero `AnnotatedSequence`, which is exactly the
value parsing an empty file produces: the failed read and the empty file are
equal outcomes, so nothing reaches the caller. -/
theorem c8_read_failure_indistinguishable :
    readGbk none = readGbk (some []) ∧ readGbk none = some {} := by decide

/-- A character-free split stays in one piece. -/
theorem splitChar_of_not_mem (sep : Char) (s : GoStr) (h : sep ∉ s) :
    splitChar sep s = [s] := by
  induction s with
  | nil => rfl
  | cons c cs ih =>
    simp only [List.mem_cons, not_or] at h
    have hcs : ¬c = sep := fun hc => h.1 hc.symm
    simp only [splitChar, if_neg hcs, ih h.2]

/-- Splitting at the first separator occurrence: a separator-free prefix
becomes the head piece. -/
theorem splitChar_append_sep (sep : Char) (k rest : GoStr) (hk : sep ∉ k) :
    splitChar sep (k ++ sep :: rest) = k :: splitChar sep rest := by
  induction k with
  | nil => simp [splitChar]
  | cons c cs ih =>
    simp only [List.mem_cons, not_or] at hk
    have hcs : ¬c = sep := fun hc => hk.1 hc.symm
    rw [List.cons_append]
    simp only [splitChar, if_neg hcs]
    rw [ih hk.2]

/-- C3 (amended): once the qualifier text is fully assembled, quote, slash
and newline characters are removed and the text is split on `=`: the key is
the trimmed text before the first `=`, and the value is the trimmed segment
between the first and the second `=` (the whole remainder when there is no
second `=`, and the empty string when there is no `=` at all — boolean
qualifiers); text after a second `=` is discarded.  `qualifierToAttribute`
is the attribute-insertion step of `getFeatures`. -/
theorem c3_qualifier_split_semantics :
    (∀ q, '=' ∉ stripQuoteSlash q →
        qualifierToAttribute q = (trimSpace (stripQuoteSlash q), [])) ∧
    (∀ q k v tl, '=' ∉ k → '=' ∉ v →
        stripQuoteSlash q = k ++ '=' :: v ++ tl →
        (tl = [] ∨ ∃ r, tl = '=' :: r) →
        qualifierToAttribute q = (trimSpace k, trimSpace v)) := by
  constructor
  · intro q h
    simp [qualifierToAttribute, splitChar_of_not_mem '=' _ h]
  · intro q k v tl hk hv hq htl
    rcases htl with h0 | ⟨r, hr⟩
    · subst h0
      have h1 : splitChar '=' (stripQuoteSlash q) = [k, v] := by
        rw [hq, List.append_nil, splitChar_append_sep '=' k v hk,
          splitChar_of_not_mem '=' v hv]
      simp [qualifierToAttribute, h1]
    · subst hr
      have h1 : splitChar '=' (stripQuoteSlash q) = k :: v :: splitChar '=' r := by
        rw [hq, List.append_assoc, List.cons_append,
          splitChar_append_sep '=' k (v ++ '=' :: r) hk, splitChar_append_sep '=' v r hv]
      simp [qualifierToAttribute, h1]

/-- C3 (witness): the amended statement applied to the qualifier line
`/note="a=b"`: key `note`, value `a` (quotes and slashes stripped). -/
theorem c3_qualifier_split_witness :
    qualifierToAttribute (List.replicate 21 ' ' ++ str "/note=\"a=b\"") =
      (str "note", str "a") := by
  have h := c3_qualifier_split_semantics.2
    (List.replicate 21 ' ' ++ str "/note=\"a=b\"")
    (List.replicate 21 ' ' ++ str "note") (str "a") (str "=b")
    (by decide) (by decide) (by decide) (Or.inr ⟨str "b", rfl⟩)
  rw [h]
  decide

/-- C4: `parseLocus` reads the whitespace-split, empty-token-filtered LOCUS
tokens positionally: name from token 1, token 2 and token 3 joined with one
space as the length, token 4 as the molecule type; when token 5 is literally
`circular` or `linear`, the circularity flag is set accordingly and
division/date come from tokens 6/7, otherwise the flag is false and
division/date come from tokens 5/6. -/
theorem c4_parseLocus_positional (s t0 t1 t2 t3 t4 t5 t6 t7 : GoStr) (rest : List GoStr) :
    (((splitChar ' ' (trimSpace s)).filter (fun t => !t.isEmpty) =
        t0 :: t1 :: t2 :: t3 :: t4 :: t5 :: t6 :: t7 :: rest) →
      (t5 = str "circular" ∨ t5 = str "linear") →
      parseLocus s = some { Name := t1, SequenceLength := t2 ++ [' '] ++ t3,
                            MoleculeType := t4, Circular := decide (t5 = str "circular"),
                            GenBankDivision := t6, ModDate := t7 }) ∧
    (((splitChar ' ' (trimSpace s)).filter (fun t => !t.isEmpty) =
        t0 :: t1 :: t2 :: t3 :: t4 :: t5 :: t6 :: rest) →
      t5 ≠ str "circular" → t5 ≠ str "linear" →
      parseLocus s = some { Name := t1, SequenceLength := t2 ++ [' '] ++ t3,
                            MoleculeType := t4, Circular := false,
                            GenBankDivision := t5, ModDate := t6 }) := by
  constructor
  · intro h hcl
    rcases hcl with hc | hl
    · subst hc
      simp only [parseLocus]
      rw [h]
      simp [List.get?, joinStr]
    · subst hl
      simp only [parseLocus]
      rw [h]
      simp [List.get?, joinStr]
  · intro h hc hl
    simp only [parseLocus]
    rw [h]
    simp [List.get?, joinStr, hc, hl]

/-- C4 (witness): the positional theorem applied to a concrete LOCUS line
with the `circular` token present. -/
theorem c4_parseLocus_witness :
    parseLocus (str "LOCUS       pSB1C3 2070 bp DNA circular SYN 21-OCT-2015") =
      some { Name := str "pSB1C3", SequenceLength := str "2070 bp", MoleculeType := str "DNA",
             Circular := true, GenBankDivision := str "SYN", ModDate := str "21-OCT-2015" } := by
  have h := (c4_parseLocus_positional
    (str "LOCUS       pSB1C3 2070 bp DNA circular SYN 21-OCT-2015")
    (str "LOCUS") (str "pSB1C3") (str "2070") (str "bp") (str "DNA") (str "circular")
    (str "SYN") (str "21-OCT-2015") []).1 (by decide) (Or.inl rfl)
  rw [h]
  decide

/-- C9 (counterexample): the claim says every GBK-parsed feature carries the
enclosing record's name.  On a record whose LOCUS name is `pSB1C3` with one
feature, the parsed feature's `Name` is the empty string: `getFeatures` never
writes the field. -/
theorem c9_feature_name_left_empty :
    ((parseGbk c9Input).map (fun a => (a.Meta.Locus.Name, a.Features.map Feature.Name)) =
        some (str "pSB1C3", [[]])) ∧
      str "pSB1C3" ≠ [] := by decide

/-- Invariant of the `getFeatures` outer loop: every feature it appends is
built by the `Feature{}` literal, whose `Name` stays the zero value. -/
theorem getFeaturesLoop_name_empty :
    ∀ (fuel : Nat) (acc : List Feature) (lines : List GoStr) (fs : List Feature),
      getFeaturesLoop fuel acc lines = some fs →
      (∀ f ∈ acc, f.Name = []) → ∀ f ∈ fs, f.Name = []
  | 0, acc, lines, fs, h, hacc => by simp [getFeaturesLoop] at h
  | fuel + 1, acc, [], fs, h, hacc => by
      simp only [getFeaturesLoop, Option.some.injEq] at h
      subst h; exact hacc
  | fuel + 1, acc, line :: rest, fs, h, hacc => by
      simp only [getFeaturesLoop] at h
      split at h
      · exact absurd h (by simp)
      · split at h
        · simp only [Option.some.injEq] at h
          subst h; exact hacc
        · split at h
          · exact absurd h (by simp)
          · split at h
            · simp only [Option.some.injEq] at h
              subst h; exact hacc
            · split at h
              · exact absurd h (by simp)
              · split at h
                · exact absurd h (by simp)
                · exact getFeaturesLoop_name_empty fuel _ _ fs h
                    (by intro f hf
                        rcases List.mem_append.mp hf with hf | hf
                        · exact hacc f hf
                        · simp at hf; subst hf; rfl)

/-- C9 (amended): the GBK feature-table parser never populates `Feature.Name`:
every feature returned by `getFeatures` has the empty string there, whatever
the enclosing record's name is. -/
theorem c9_getFeatures_name_empty (lines : List GoStr) (fs : List Feature)
    (h : getFeatures lines = some fs) : ∀ f ∈ fs, f.Name = [] :=
  getFeaturesLoop_name_empty (lines.length + 1) [] lines fs h (by simp)

/-- Feature lines of the C9 witness. -/
def c9WitnessLines : List GoStr := [str "     source          1..10", str "ORIGIN"]

/-- The feature `getFeatures` produces from `c9WitnessLines`. -/
def c9WitnessFeature : Feature := { «Type» := str "source", Location := str "1..10" }

/-- C9 (witness): the amended statement evaluated on a concrete feature
block. -/
theorem c9_getFeatures_name_empty_witness :
    getFeatures c9WitnessLines = some [c9WitnessFeature] ∧ c9WitnessFeature.Name = [] :=
  ⟨by decide,
   c9_getFeatures_name_empty c9WitnessLines [c9WitnessFeature] (by decide)
     c9WitnessFeature (by simp)⟩

/-- `lexLe` on cons cells: strictly smaller head, or equal heads and
comparable tails. -/
theorem lexLe_cons (a b : Char) (as bs : GoStr) :
    lexLe (a :: as) (b :: bs) = true ↔ a < b ∨ (a = b ∧ lexLe as bs = true) := by
  simp only [lexLe]
  by_cases h1 : a < b
  · simp [h1]
  · by_cases h2 : b < a
    · have hne : a ≠ b := fun he => absurd (he ▸ h2) (lt_irrefl a)
      simp [h1, h2, hne]
    · have he : a = b := le_antisymm (not_lt.mp h2) (not_lt.mp h1)
      simp [h1, h2, he]

/-- `lexLe` is total. -/
theorem lexLe_total : ∀ a b : GoStr, lexLe a b = true ∨ lexLe b a = true
  | [], _ => Or.inl rfl
  | _ :: _, [] => Or.inr rfl
  | a :: as, b :: bs => by
      rw [lexLe_cons, lexLe_cons]
      rcases lt_trichotomy a b with h | h | h
      · exact Or.inl (Or.inl h)
      · rcases lexLe_total as bs with hr | hr
        · exact Or.inl (Or.inr ⟨h, hr⟩)
        · exact Or.inr (Or.inr ⟨h.symm, hr⟩)
      · exact Or.inr (Or.inl h)

/-- `lexLe` is transitive. -/
theorem lexLe_trans : ∀ a b c : GoStr, lexLe a b = true → lexLe b c = true → lexLe a c = true
  | [], _, _, _, _ => rfl
  | _ :: _, [], _, h, _ => by simp [lexLe] at h
  | _ :: _, _ :: _, [], _, h => by simp [lexLe] at h
  | a :: as, b :: bs, c :: cs, h1, h2 => by
      rw [lexLe_cons] at h1 h2 ⊢
      rcases h1 with h1 | ⟨rfl, h1⟩
      · rcases h2 with h2 | ⟨rfl, h2⟩
        · exact Or.inl (lt_trans h1 h2)
        · exact Or.inl h1
      · rcases h2 with h2 | ⟨rfl, h2⟩
        · exact Or.inl h2
        · exact Or.inr ⟨rfl, lexLe_trans as bs cs h1 h2⟩

/-- `lexLe` is antisymmetric. -/
theorem lexLe_antisymm : ∀ a b : GoStr, lexLe a b = true → lexLe b a = true → a = b
  | [], [], _, _ => rfl
  | [], _ :: _, _, h => by simp [lexLe] at h
  | _ :: _, [], h, _ => by simp [lexLe] at h
  | a :: as, b :: bs, h1, h2 => by
      rw [lexLe_cons] at h1 h2
      rcases h1 with h1 | ⟨rfl, h1⟩
      · rcases h2 with h2 | ⟨he, h2⟩
        · exact absurd h2 (lt_asymm h1)
        · exact absurd h1 (he ▸ lt_irrefl b)
      · rcases h2 with h2 | ⟨he, h2⟩
        · exact absurd h2 (lt_irrefl a)
        · rw [lexLe_antisymm as bs h1 h2]

/-- Totality of `lexLe`, packaged (kept out of instance resolution on
purpose). -/
def lexLeIsTotal : IsTotal GoStr (fun a b => lexLe a b = true) := ⟨lexLe_total⟩

/-- Transitivity of `lexLe`, packaged. -/
def lexLeIsTrans : IsTrans GoStr (fun a b => lexLe a b = true) := ⟨lexLe_trans⟩

/-- Antisymmetry of `lexLe`, packaged. -/
def lexLeIsAntisymm : IsAntisymm GoStr (fun a b => lexLe a b = true) := ⟨lexLe_antisymm⟩

/-- Sorting is invariant under permutation of the input: both sorts are
sorted and permutations of one another, hence equal. -/
theorem sortStrings_perm_congr {l1 l2 : List GoStr} (h : l1.Perm l2) :
    sortStrings l1 = sortStrings l2 := by
  haveI := lexLeIsTotal
  haveI := lexLeIsTrans
  haveI := lexLeIsAntisymm
  exact List.eq_of_perm_of_sorted
    ((List.perm_insertionSort _ l1).trans (h.trans (List.perm_insertionSort _ l2).symm))
    (List.sorted_insertionSort _ l1) (List.sorted_insertionSort _ l2)

/-- Reads of a Go map do not depend on the association-list order chosen to
represent it, as long as keys are unique. -/
theorem mapLookup_perm (k : GoStr) {l1 l2 : List (GoStr × GoStr)}
    (h : l1.Perm l2) (hnd : (l1.map Prod.fst).Nodup) :
    mapLookup k l1 = mapLookup k l2 := by
  induction h with
  | nil => rfl
  | cons x h ih =>
    obtain ⟨k1, v1⟩ := x
    simp only [List.map_cons, List.nodup_cons] at hnd
    simp only [mapLookup]
    by_cases hk : k1 = k
    · simp [hk]
    · simp only [if_neg hk]
      exact ih hnd.2
  | swap x y l =>
    obtain ⟨kx, vx⟩ := x
    obtain ⟨ky, vy⟩ := y
    simp only [List.map_cons, List.nodup_cons, List.mem_cons] at hnd
    have hxy : ky ≠ kx := fun he => hnd.1 (Or.inl he)
    simp only [mapLookup]
    by_cases h1 : ky = k
    · have h2 : kx ≠ k := fun he => hxy (h1.trans he.symm)
      simp [h1, h2]
    · by_cases h2 : kx = k <;> simp [h1, h2]
  | trans h1 h2 ih1 ih2 =>
    exact (ih1 hnd).trans (ih2 ((h1.map Prod.fst).nodup hnd))

/-- Two association lists denote the same Go `map[string]string` when one is
a permutation of the other and keys are unique; the list orders stand for two
iteration orders of the same map. -/
def SameGoMap (a1 a2 : List (GoStr × GoStr)) : Prop :=
  a1.Perm a2 ∧ (a1.map Prod.fst).Nodup

/-- Two `Feature` values that are equal except that their attribute maps are
materialized in different iteration orders. -/
def FeatureSameUpToAttrOrder (f g : Feature) : Prop :=
  f.Name = g.Name ∧ f.Source = g.Source ∧ f.«Type» = g.«Type» ∧ f.Start = g.Start ∧
  f.End = g.End ∧ f.Score = g.Score ∧ f.Strand = g.Strand ∧ f.Phase = g.Phase ∧
  f.Location = g.Location ∧ f.Sequence = g.Sequence ∧ SameGoMap f.Attributes g.Attributes

/-- The per-feature GFF line does not depend on the attribute iteration
order: keys are sorted before emission and values are looked up by key. -/
theorem buildGffFeatureLine_congr {a1 a2 : AnnotatedSequence} {f g : Feature}
    (hMeta : a1.Meta = a2.Meta) (h : FeatureSameUpToAttrOrder f g) :
    buildGffFeatureLine a1 f = buildGffFeatureLine a2 g := by
  obtain ⟨hN, hS, hT, hSt, hE, hSc, hStr, hP, hL, hSq, hperm, hnd⟩ := h
  have hkeys : sortStrings (f.Attributes.map Prod.fst) =
      sortStrings (g.Attributes.map Prod.fst) :=
    sortStrings_perm_congr (hperm.map Prod.fst)
  have hfun : (fun (acc : GoStr) (key : GoStr) =>
        acc ++ key ++ ['='] ++ mapLookup key f.Attributes ++ [';']) =
      (fun (acc : GoStr) (key : GoStr) =>
        acc ++ key ++ ['='] ++ mapLookup key g.Attributes ++ [';']) := by
    funext acc key
    rw [mapLookup_perm key hperm hnd]
  unfold buildGffFeatureLine
  rw [hN, hS, hT, hSt, hE, hSc, hStr, hP, hMeta, hkeys, hfun]

/-- The concatenation of all feature lines is likewise order-insensitive. -/
theorem foldl_featureLines_congr {a1 a2 : AnnotatedSequence} (hMeta : a1.Meta = a2.Meta) :
    ∀ (fs gs : List Feature), List.Forall₂ FeatureSameUpToAttrOrder fs gs →
    ∀ acc : GoStr,
      List.foldl (fun acc f => acc ++ buildGffFeatureLine a1 f) acc fs =
        List.foldl (fun acc g => acc ++ buildGffFeatureLine a2 g) acc gs := by
  intro fs
  induction fs with
  | nil =>
    intro gs h acc
    cases h
    simp only [List.foldl_nil]
  | cons f fs ih =>
    intro gs h acc
    cases h with
    | cons hfg hrest =>
      simp only [List.foldl_cons]
      rw [buildGffFeatureLine_congr hMeta hfg]
      exact ih _ hrest _

/-- C10: `BuildGff` is deterministic in the face of Go's randomized map
iteration order: two models that differ only in the order their attribute
maps are materialized (same key/value bindings, unique keys) produce
byte-identical output, because each feature's attribute keys are sorted
before emission and values are looked up by key. -/
theorem c10_buildGff_deterministic (m1 m2 : AnnotatedSequence)
    (hMeta : m1.Meta = m2.Meta) (hSeq : m1.Sequence = m2.Sequence)
    (hFeat : List.Forall₂ FeatureSameUpToAttrOrder m1.Features m2.Features) :
    buildGff m1 = buildGff m2 := by
  unfold buildGff
  rw [hMeta, hSeq, foldl_featureLines_congr hMeta m1.Features m2.Features hFeat []]

/-- One materialization of a two-attribute model. -/
def c10Model1 : AnnotatedSequence :=
  { Features := [{ Attributes := [(str "a", str "1"), (str "b", str "2")] }] }

/-- The same model with the other iteration order. -/
def c10Model2 : AnnotatedSequence :=
  { Features := [{ Attributes := [(str "b", str "2"), (str "a", str "1")] }] }

/-- C10 (witness): determinism applied to the two materializations. -/
theorem c10_buildGff_deterministic_witness : buildGff c10Model1 = buildGff c10Model2 :=
  c10_buildGff_deterministic c10Model1 c10Model2 rfl rfl
    (List.Forall₂.cons
      ⟨rfl, rfl, rfl, rfl, rfl, rfl, rfl, rfl, rfl, rfl, by decide, by decide⟩
      List.Forall₂.nil)


/-- The head of a `dropWhile p` result never satisfies `p`. -/
theorem head?_dropWhile_false (p : Char → Bool) :
    ∀ (s : GoStr) (c : Char), (List.dropWhile p s).head? = some c → p c = false
  | [], c, h => by simp at h
  | a :: t, c, h => by
      rw [List.dropWhile_cons] at h
      by_cases hp : p a
      · rw [if_pos hp] at h
        exact head?_dropWhile_false p t c h
      · rw [if_neg hp] at h
        simp only [List.head?_cons, Option.some.injEq] at h
        subst h
        exact Bool.eq_false_iff.mpr hp

/-- The last element of a reversed list is its head. -/
theorem getLast?_reverse_eq (l : GoStr) : l.reverse.getLast? = l.head? := by
  cases l with
  | nil => rfl
  | cons a t =>
    rw [List.reverse_cons, List.getLast?_append_of_ne_nil _ (by simp), List.head?_cons]
    rfl

/-- A string that neither starts nor ends with whitespace (vacuously true
for the empty string): the shape `trimSpace` produces and preserves. -/
def GoodEnds (s : GoStr) : Prop :=
  (∀ c, s.head? = some c → isSpaceGo c = false) ∧
  (∀ c, s.getLast? = some c → isSpaceGo c = false)

/-- Trimming leaves a `GoodEnds` string unchanged. -/
theorem trimSpace_of_goodEnds {s : GoStr} (h : GoodEnds s) : trimSpace s = s := by
  obtain ⟨h1, h2⟩ := h
  cases s with
  | nil => rfl
  | cons a t =>
    have ha : isSpaceGo a = false := h1 a rfl
    unfold trimSpace
    rw [List.dropWhile_cons, if_neg (by simp [ha])]
    rw [List.rdropWhile_eq_self_iff.mpr ?_]
    intro hl
    have := h2 ((a :: t).getLast hl) (List.getLast?_eq_getLast_of_ne_nil hl)
    simp [this]

/-- Trimming always produces a `GoodEnds` string. -/
theorem goodEnds_trimSpace (s : GoStr) : GoodEnds (trimSpace s) := by
  constructor
  · intro c hc
    have hne : trimSpace s ≠ [] := by
      intro h0
      rw [h0] at hc
      simp at hc
    obtain ⟨t, ht⟩ := List.rdropWhile_prefix isSpaceGo (List.dropWhile isSpaceGo s)
    have ht2 : trimSpace s ++ t = List.dropWhile isSpaceGo s := ht
    have hh : (List.dropWhile isSpaceGo s).head? = some c := by
      rw [← ht2, List.head?_append_of_ne_nil _ hne, hc]
    exact head?_dropWhile_false _ _ _ hh
  · intro c hc
    unfold trimSpace List.rdropWhile at hc
    rw [getLast?_reverse_eq] at hc
    exact head?_dropWhile_false _ _ _ hc

/-- Joining two nonempty `GoodEnds` strings with one interior blank again
has good ends. -/
theorem goodEnds_append_frag {a b : GoStr} (ha : GoodEnds a) (hb : GoodEnds b)
    (hna : a ≠ []) (hnb : b ≠ []) : GoodEnds (a ++ [' '] ++ b) := by
  constructor
  · intro c hc
    rw [List.head?_append_of_ne_nil _ (by simp [hna] : a ++ [' '] ≠ []),
      List.head?_append_of_ne_nil _ hna] at hc
    exact ha.1 c hc
  · intro c hc
    rw [List.getLast?_append_of_ne_nil _ hnb] at hc
    exact hb.2 c hc

/-- Absorbing a pre-joined head piece into a `joinStr`. -/
theorem joinStr_cons_append (sep x y : GoStr) (zs : List GoStr) :
    joinStr sep ((x ++ sep ++ y) :: zs) = x ++ sep ++ joinStr sep (y :: zs) := by
  cases zs with
  | nil => rfl
  | cons z zs => simp [joinStr, List.append_assoc]

/-- The continuation-folding loop of `joinSubLines`: over plain-continuation
lines it appends each trimmed fragment with a single space, and it stops at
the first top-level or sub-level line, never looking at it or beyond. -/
theorem joinSubLinesAux_spec :
    ∀ (conts : List GoStr) (base : GoStr), GoodEnds base → base ≠ [] →
      (∀ l ∈ conts, quickMetaCheck l = some false ∧ quickSubMetaCheck l = some false ∧
        trimSpace l ≠ []) →
      ∀ (tail : List GoStr),
        (tail = [] ∨ ∃ stop rest, tail = stop :: rest ∧
          (quickMetaCheck stop = some true ∨
            (quickMetaCheck stop = some false ∧ quickSubMetaCheck stop = some true))) →
      joinSubLinesAux base (conts ++ tail) =
        some (joinStr [' '] (base :: conts.map trimSpace))
  | [], base, hg, hne, hc, tail, htail => by
      rcases htail with rfl | ⟨stop, rest, rfl, hstop⟩
      · simp [joinSubLinesAux, joinStr]
      · rcases hstop with hm | ⟨hm, hsm⟩
        · simp [joinSubLinesAux, hm, joinStr]
        · simp [joinSubLinesAux, hm, hsm, joinStr]
  | l :: ls, base, hg, hne, hc, tail, htail => by
      obtain ⟨hm, hsm, hfrag⟩ := hc l (by simp)
      have hfragGood : GoodEnds (trimSpace l) := goodEnds_trimSpace l
      have hbase' : trimSpace base = base := trimSpace_of_goodEnds hg
      have hcat : GoodEnds (base ++ [' '] ++ trimSpace l) :=
        goodEnds_append_frag hg hfragGood hne hfrag
      have hstep : trimSpace (trimSpace base ++ [' '] ++ trimSpace l) =
          base ++ [' '] ++ trimSpace l := by
        rw [hbase']
        exact trimSpace_of_goodEnds hcat
      rw [List.cons_append]
      simp only [joinSubLinesAux, hm, hsm, Option.bind_some]
      rw [hstep]
      rw [joinSubLinesAux_spec ls (base ++ [' '] ++ trimSpace l) hcat (by simp)
        (fun x hx => hc x (by simp [hx])) tail htail]
      rw [List.map_cons, joinStr_cons_append]
      rfl

/-- C6: `joinSubLines` on a single-line field (no continuation lines before
the stopping line) returns the defining line's trimmed remainder unchanged,
and across `N` plain-continuation lines returns the defining text plus the
`N` trimmed fragments joined with single spaces in file order; it stops at
the first top-level or sub-level line without consuming it (the result does
not depend on that line or anything after it).  The hypotheses require the
defining text and each trimmed fragment to be nonempty — the reading under
which "joined with single spaces" is exact, since Go's `TrimSpace` collapses
a separator next to an empty piece. -/
theorem c6_joinSubLines_continuation (splitLine conts tl : List GoStr)
    (hbase : trimSpace (joinStr [' '] splitLine.tail) ≠ [])
    (hconts : ∀ l ∈ conts, quickMetaCheck l = some false ∧
      quickSubMetaCheck l = some false ∧ trimSpace l ≠ [])
    (htail : tl = [] ∨ ∃ stop rest, tl = stop :: rest ∧
      (quickMetaCheck stop = some true ∨
        (quickMetaCheck stop = some false ∧ quickSubMetaCheck stop = some true))) :
    joinSubLines splitLine (conts ++ tl) =
      some (joinStr [' '] (trimSpace (joinStr [' '] splitLine.tail) :: conts.map trimSpace)) := by
  unfold joinSubLines
  exact joinSubLinesAux_spec conts _ (goodEnds_trimSpace _) hbase hconts tl htail

/-- C6 (witness): one continuation line under a DEFINITION line, stopped by
an ACCESSION line. -/
theorem c6_joinSubLines_continuation_witness :
    joinSubLines [str "DEFINITION", str "Cloning"]
        ([str "            vector pSB1C3."] ++ [str "ACCESSION   X"]) =
      some (str "Cloning vector pSB1C3.") := by
  have h := c6_joinSubLines_continuation [str "DEFINITION", str "Cloning"]
    [str "            vector pSB1C3."] [str "ACCESSION   X"]
    (by decide) (by decide)
    (Or.inr ⟨str "ACCESSION   X", [], rfl, Or.inl (by decide)⟩)
  rw [h]
  decide

end PolyIo
